import Mathlib

/-!
Verification of the LocalStorageVec container from
src/2-foundations-of-rust/4-traits-and-generics/1-local-storage-vec/src/lib.rs.

The container is a tagged union of two shapes: an inline fixed-size buffer
with a live-length counter (Stack), or a heap-backed growable buffer (Heap).
We embed it shallowly: the inline buffer of N slots becomes a Lean list
together with the well-formedness invariant that its length is exactly N and
that the live length does not exceed N (in Rust this is enforced by the
array type `[T; N]`).  Rust panics are modelled by Option-returning
operations (`none` = panic); `Option::None` results that are part of the
normal contract (pop on empty) are modelled directly as option values.
-/

namespace LSVSpec

/-- The two storage shapes of LocalStorageVec.  In Rust, `Stack` carries
`buf : [T; N]` and `len : usize`; here `buf` is a list whose length is N
under the well-formedness invariant `wf`. -/
inductive LSV (T : Type) (N : Nat) where
  | Stack (buf : List T) (len : Nat)
  | Heap (v : List T)
deriving Repr, DecidableEq

variable {T : Type} {N : Nat}

/-- Well-formedness: the Rust type invariant that the inline buffer has
exactly N slots and the live length never exceeds N. -/
def wf : LSV T N → Prop
  | .Stack buf len => buf.length = N ∧ len ≤ N
  | .Heap _ => True

instance (s : LSV T N) : Decidable (wf s) := by
  cases s with
  | Stack buf len => exact inferInstanceAs (Decidable (_ ∧ _))
  | Heap v => exact inferInstanceAs (Decidable True)

/-- Shape query: is the container in the inline (Stack) shape? -/
def LSV.isStack : LSV T N → Bool
  | .Stack _ _ => true
  | .Heap _ => false

/-- Shape query: is the container in the heap shape? -/
def LSV.isHeap : LSV T N → Bool
  | .Stack _ _ => false
  | .Heap _ => true

/-- `LocalStorageVec::new`: inline shape, len 0, default-filled slots. -/
def LSV.new (T : Type) [Inhabited T] (N : Nat) : LSV T N :=
  .Stack (List.replicate N default) 0

/-- `impl From<Vec<T>> for LocalStorageVec<T, N>`: always wraps the source
in the Heap shape. -/
def from_vec (v : List T) : LSV T N :=
  .Heap v

/-- `impl From<[T; K]> for LocalStorageVec<T, M>`: if the source length fits
the inline capacity, build the Stack shape from the first K iterator items
padded with defaults (`[(); M].map(|_| it.next().unwrap_or_default())`);
otherwise wrap all elements in the Heap shape. -/
def from_array [Inhabited T] {M : Nat} (arr : List T) : LSV T M :=
  if arr.length ≤ M then
    .Stack (arr.takeD M default) arr.length
  else
    .Heap arr

/-- `LocalStorageVec::len`. -/
def LSV.len : LSV T N → Nat
  | .Stack _ l => l
  | .Heap v => v.length

/-- `impl AsRef<[T]>`: the live elements as one contiguous view. -/
def LSV.as_ref : LSV T N → List T
  | .Stack buf l => buf.take l
  | .Heap v => v

/-- `impl Index<usize>`: `none` models the out-of-bounds panic. -/
def LSV.idx : LSV T N → Nat → Option T
  | .Stack buf l, i => if i < l then buf[i]? else none
  | .Heap v, i => v[i]?

/-- `impl Index<RangeFrom<usize>>`: the Stack arm requires `start < len`
and returns `buf[start..len]`; the Heap arm delegates to `&v[start..]`,
which in Rust succeeds exactly when `start <= v.len()`. -/
def LSV.indexFrom : LSV T N → Nat → Option (List T)
  | .Stack buf l, s =>
      if s < l then
        if l ≤ buf.length then some ((buf.take l).drop s) else none
      else none
  | .Heap v, s => if s ≤ v.length then some (v.drop s) else none

/-- `impl IndexMut<usize>` used as a store: write `x` at position `i`;
`none` models the out-of-bounds panic. -/
def LSV.setIdx : LSV T N → Nat → T → Option (LSV T N)
  | .Stack buf l, i, x =>
      if i < l then
        if i < buf.length then some (.Stack (buf.set i x) l) else none
      else none
  | .Heap v, i, x => if i < v.length then some (.Heap (v.set i x)) else none

/-- `LocalStorageVec::push`.  The Stack arm with room writes at slot `len`;
otherwise the live elements are moved into a heap buffer and the item is
appended. -/
def LSV.push [Inhabited T] : LSV T N → T → LSV T N
  | .Stack buf l, item =>
      if l < N then .Stack (buf.set l item) (l + 1)
      else .Heap (buf.take l ++ [item])
  | .Heap v, item => .Heap (v ++ [item])

/-- `LocalStorageVec::pop`: returns the popped element (if any) and the new
container state. -/
def LSV.pop : LSV T N → Option T × LSV T N
  | .Stack buf l =>
      if l > 0 then (buf[l - 1]?, .Stack buf (l - 1))
      else (none, .Stack buf l)
  | .Heap v => (v.getLast?, .Heap v.dropLast)

/-- The inline buffer after `buf.copy_within(index..len, index + 1)`
followed by `buf[index] = item`: slots below `index` are unchanged, slot
`index` holds the item, slots `index+1 ..= len` hold the shifted block, and
the trailing non-live slots are unchanged. -/
def stackInsertBuf (buf : List T) (i l : Nat) (item : T) : List T :=
  buf.take i ++ [item] ++ (buf.drop i).take (l - i) ++ buf.drop (l + 1)

/-- `LocalStorageVec::insert`.  `none` models the panics of
`copy_within` / `buf[index] = item` / `Vec::insert` on an out-of-range
index. -/
def LSV.insert : LSV T N → Nat → T → Option (LSV T N)
  | .Stack buf l, i, item =>
      if l < N then
        if i ≤ l ∧ l ≤ buf.length ∧ i < buf.length then
          some (.Stack (stackInsertBuf buf i l item) (l + 1))
        else none
      else
        if l ≤ buf.length then
          if i ≤ l then
            some (.Heap ((buf.take l).take i ++ [item] ++ (buf.take l).drop i))
          else none
        else none
  | .Heap v, i, item =>
      if i ≤ v.length then some (.Heap (v.take i ++ [item] ++ v.drop i))
      else none

/-- The inline buffer after `buf.copy_within(index + 1..len, index)`:
slots below `index` unchanged, slots `index .. len-1` hold the shifted
block, slots from `len-1` on unchanged. -/
def stackRemoveBuf (buf : List T) (i l : Nat) : List T :=
  buf.take i ++ (buf.drop (i + 1)).take (l - i - 1) ++ buf.drop (l - 1)

/-- `LocalStorageVec::remove`: returns the removed element and the new
state; `none` models the panic (array access out of bounds, `copy_within`
range failure, `Vec::remove` out of bounds, or the explicit panic arm
reached when the Stack shape is empty). -/
def LSV.remove : LSV T N → Nat → Option (T × LSV T N)
  | .Stack buf l, i =>
      if l > 0 then
        if h : i < buf.length then
          if i + 1 ≤ l ∧ l ≤ buf.length then
            some (buf.get ⟨i, h⟩, .Stack (stackRemoveBuf buf i l) (l - 1))
          else none
        else none
      else none
  | .Heap v, i =>
      if h : i < v.length then
        some (v.get ⟨i, h⟩, .Heap (v.take i ++ v.drop (i + 1)))
      else none

/-- `LocalStorageVec::clear`: reset the live length to 0 in the Stack
shape, empty the buffer in the Heap shape. -/
def LSV.clear : LSV T N → LSV T N
  | .Stack buf _ => .Stack buf 0
  | .Heap _ => .Heap []

/-- `LocalStorageVecIter`: the consuming iterator, holding the container
and a position counter. -/
structure LSVIter (T : Type) (N : Nat) where
  vec : LSV T N
  counter : Nat
deriving Repr, DecidableEq

/-- `Iterator::next` for LocalStorageVecIter: if the counter is below the
live length, take the element at the counter (replacing it in place with
the default value via IndexMut) and advance; otherwise yield nothing.  The
`(none, it)` result of the inner match models the IndexMut panic, which is
unreachable for well-formed containers. -/
def LSVIter.next [Inhabited T] (it : LSVIter T N) : Option T × LSVIter T N :=
  if it.counter < it.vec.len then
    match it.vec.idx it.counter, it.vec.setIdx it.counter default with
    | some x, some v2 => (some x, ⟨v2, it.counter + 1⟩)
    | _, _ => (none, it)
  else (none, it)

/-- `IntoIterator::into_iter`: wrap the container with counter 0. -/
def LSV.into_iter (s : LSV T N) : LSVIter T N :=
  ⟨s, 0⟩

/-- Drive the iterator with the given amount of fuel, collecting the
produced elements in order; stops at the first `none`. -/
def LSVIter.collect [Inhabited T] : Nat → LSVIter T N → List T
  | 0, _ => []
  | fuel + 1, it =>
      match it.next with
      | (some x, it2) => x :: LSVIter.collect fuel it2
      | (none, _) => []

/-- Apply `next` to the iterator `k` times, keeping only the state. -/
def LSVIter.steps [Inhabited T] : Nat → LSVIter T N → LSVIter T N
  | 0, it => it
  | k + 1, it => LSVIter.steps k (it.next).2

/-- The five mutating operations of the container, as a syntax for
operation sequences. -/
inductive Op (T : Type) where
  | push (x : T)
  | pop
  | ins (i : Nat) (x : T)
  | rem (i : Nat)
  | clear
deriving Repr, DecidableEq

/-- Apply one operation; `none` models a panic. -/
def applyOp [Inhabited T] : Op T → LSV T N → Option (LSV T N)
  | .push x, s => some (s.push x)
  | .pop, s => some (s.pop).2
  | .ins i x, s => s.insert i x
  | .rem i, s => (s.remove i).map Prod.snd
  | .clear, s => some s.clear

/-- Apply a sequence of operations left to right, stopping at a panic. -/
def applyOps [Inhabited T] : List (Op T) → LSV T N → Option (LSV T N)
  | [], s => some s
  | op :: ops, s =>
      match applyOp op s with
      | some s2 => applyOps ops s2
      | none => none

/-! Helper lemmas about the embedding. -/

theorem takeD_eq_self_append (d : T) (arr : List T) : ∀ (n : Nat), arr.length ≤ n →
    arr.takeD n d = arr ++ List.replicate (n - arr.length) d := by
  induction arr with
  | nil => intro n _; simp
  | cons a arr ih =>
    intro n h
    cases n with
    | zero => simp at h
    | succ m =>
      simp only [List.takeD_succ, List.head?_cons, Option.getD_some, List.tail_cons,
        List.cons_append, List.length_cons]
      rw [ih m (by simpa using h)]
      simp [Nat.succ_sub_succ]

theorem as_ref_length {s : LSV T N} (h : wf s) : s.as_ref.length = s.len := by
  cases s with
  | Stack buf l =>
    obtain ⟨hN, hl⟩ := h
    simp only [LSV.as_ref, LSV.len, List.length_take]
    omega
  | Heap v => rfl

theorem as_ref_getElem {s : LSV T N} (_ : wf s) {i : Nat} (hi : i < s.len) :
    s.as_ref[i]? = s.idx i := by
  cases s with
  | Stack buf l =>
    simp only [LSV.as_ref, LSV.idx, LSV.len] at *
    rw [List.getElem?_take_of_lt hi, if_pos hi]
  | Heap v => rfl

theorem wf_push [Inhabited T] {s : LSV T N} (h : wf s) (x : T) : wf (s.push x) := by
  cases s with
  | Stack buf l =>
    obtain ⟨hN, hl⟩ := h
    by_cases hlN : l < N
    · simp only [LSV.push, if_pos hlN, wf, List.length_set]
      omega
    · simp only [LSV.push, if_neg hlN, wf]
  | Heap v => simp [LSV.push, wf]

theorem wf_pop {s : LSV T N} (h : wf s) : wf (s.pop).2 := by
  cases s with
  | Stack buf l =>
    obtain ⟨hN, hl⟩ := h
    by_cases h0 : l > 0 <;> simp only [LSV.pop, h0, if_pos, if_neg, wf] <;>
      constructor <;> omega
  | Heap v => simp [LSV.pop, wf]

theorem length_stackInsertBuf {buf : List T} {i l : Nat} (x : T)
    (hi : i ≤ l) (hl : l < buf.length) :
    (stackInsertBuf buf i l x).length = buf.length := by
  simp only [stackInsertBuf, List.length_append, List.length_take, List.length_drop,
    List.length_cons, List.length_nil]
  omega

theorem length_stackRemoveBuf {buf : List T} {i l : Nat}
    (hi : i + 1 ≤ l) (hl : l ≤ buf.length) :
    (stackRemoveBuf buf i l).length = buf.length := by
  simp only [stackRemoveBuf, List.length_append, List.length_take, List.length_drop]
  omega

theorem wf_insert {s : LSV T N} {i : Nat} {x : T} {s2 : LSV T N}
    (h : wf s) (he : s.insert i x = some s2) : wf s2 := by
  cases s with
  | Stack buf l =>
    obtain ⟨hN, hl⟩ := h
    simp only [LSV.insert] at he
    split_ifs at he with h1 h2 h3 h4
    · obtain ⟨hi, hlb, hib⟩ := h2
      cases he
      exact ⟨by rw [length_stackInsertBuf x hi (by omega)]; exact hN, by omega⟩
    · cases he
      simp [wf]
  | Heap v =>
    simp only [LSV.insert] at he
    split_ifs at he
    cases he
    simp [wf]

theorem wf_remove {s : LSV T N} {i : Nat} {p : T × LSV T N}
    (h : wf s) (he : s.remove i = some p) : wf p.2 := by
  cases s with
  | Stack buf l =>
    obtain ⟨hN, hl⟩ := h
    simp only [LSV.remove] at he
    split_ifs at he with h1 h2 h3
    · obtain ⟨hi, hlb⟩ := h3
      cases he
      exact ⟨by rw [length_stackRemoveBuf hi hlb]; exact hN, by omega⟩
  | Heap v =>
    simp only [LSV.remove] at he
    split_ifs at he
    cases he
    simp [wf]

theorem wf_clear {s : LSV T N} (_ : wf s) : wf s.clear := by
  cases s with
  | Stack buf l => exact ⟨‹wf (LSV.Stack buf l)›.1, Nat.zero_le N⟩
  | Heap v => simp [LSV.clear, wf]

theorem wf_setIdx {s : LSV T N} {i : Nat} {x : T} {s2 : LSV T N}
    (h : wf s) (he : s.setIdx i x = some s2) : wf s2 := by
  cases s with
  | Stack buf l =>
    obtain ⟨hN, hl⟩ := h
    simp only [LSV.setIdx] at he
    split_ifs at he
    cases he
    exact ⟨by simpa using hN, hl⟩
  | Heap v =>
    simp only [LSV.setIdx] at he
    split_ifs at he
    cases he
    simp [wf]

theorem wf_applyOp [Inhabited T] {op : Op T} {s s2 : LSV T N}
    (h : wf s) (he : applyOp op s = some s2) : wf s2 := by
  cases op with
  | push x => cases he; exact wf_push h x
  | pop => cases he; exact wf_pop h
  | ins i x => exact wf_insert h he
  | rem i =>
    simp only [applyOp] at he
    cases hp : s.remove i with
    | none => rw [hp] at he; cases he
    | some p =>
      rw [hp] at he
      simp only [Option.map_some'] at he
      cases he
      exact wf_remove h hp
  | clear => cases he; exact wf_clear h

theorem wf_applyOps [Inhabited T] {ops : List (Op T)} {s s2 : LSV T N}
    (h : wf s) (he : applyOps ops s = some s2) : wf s2 := by
  induction ops generalizing s with
  | nil => cases he; exact h
  | cons op ops ih =>
    simp only [applyOps] at he
    cases hop : applyOp op s with
    | none => rw [hop] at he; cases he
    | some s1 =>
      rw [hop] at he
      exact ih (wf_applyOp h hop) he

theorem isHeap_applyOp [Inhabited T] {op : Op T} {s s2 : LSV T N}
    (h : s.isHeap = true) (he : applyOp op s = some s2) : s2.isHeap = true := by
  cases s with
  | Stack buf l => simp [LSV.isHeap] at h
  | Heap v =>
    cases op with
    | push x => cases he; rfl
    | pop => cases he; rfl
    | ins i x =>
      simp only [applyOp, LSV.insert] at he
      split_ifs at he
      cases he; rfl
    | rem i =>
      simp only [applyOp, LSV.remove] at he
      split at he
      · simp only [Option.map_some'] at he
        cases he; rfl
      · simp at he
    | clear => cases he; rfl

theorem setIdx_len {s : LSV T N} {i : Nat} {x : T} {s2 : LSV T N}
    (he : s.setIdx i x = some s2) : s2.len = s.len := by
  cases s with
  | Stack buf l =>
    simp only [LSV.setIdx] at he
    split_ifs at he
    cases he
    rfl
  | Heap v =>
    simp only [LSV.setIdx] at he
    split_ifs at he
    cases he
    simp [LSV.len]

theorem setIdx_spec {s : LSV T N} (h : wf s) {i : Nat} (hi : i < s.len) (x : T) :
    ∃ s2, s.setIdx i x = some s2 ∧ wf s2 ∧ s2.len = s.len ∧
      s2.as_ref = s.as_ref.set i x := by
  cases s with
  | Stack buf l =>
    obtain ⟨hN, hl⟩ := h
    simp only [LSV.len] at hi
    have hib : i < buf.length := by omega
    refine ⟨.Stack (buf.set i x) l, ?_, ⟨by simpa using hN, hl⟩, rfl, ?_⟩
    · simp [LSV.setIdx, hi, hib]
    · simp [LSV.as_ref, List.set_take]
  | Heap v =>
    simp only [LSV.len] at hi
    exact ⟨.Heap (v.set i x), by simp [LSV.setIdx, hi], trivial, by simp [LSV.len], rfl⟩

theorem next_spec [Inhabited T] {it : LSVIter T N} (h : wf it.vec)
    (hc : it.counter < it.vec.len) :
    ∃ x v2, it.next = (some x, ⟨v2, it.counter + 1⟩) ∧ wf v2 ∧
      v2.len = it.vec.len ∧ v2.as_ref = it.vec.as_ref.set it.counter default ∧
      it.vec.as_ref[it.counter]? = some x := by
  obtain ⟨s2, hset, hwf2, hlen2, href2⟩ := setIdx_spec h hc default
  have hlt : it.counter < it.vec.as_ref.length := by rw [as_ref_length h]; exact hc
  have hsome : it.vec.as_ref[it.counter]? = some (it.vec.as_ref.get ⟨it.counter, hlt⟩) :=
    List.getElem?_eq_getElem hlt
  have hidx : it.vec.idx it.counter = some (it.vec.as_ref.get ⟨it.counter, hlt⟩) := by
    rw [← as_ref_getElem h hc]
    exact hsome
  refine ⟨it.vec.as_ref.get ⟨it.counter, hlt⟩, s2, ?_, hwf2, hlen2, href2, hsome⟩
  simp [LSVIter.next, hc, hidx, hset]

theorem next_none_snd [Inhabited T] {it : LSVIter T N}
    (h : (it.next).1 = none) : (it.next).2 = it := by
  by_cases hc : it.counter < it.vec.len
  · cases hidx : it.vec.idx it.counter with
    | none => simp [LSVIter.next, hc, hidx]
    | some x =>
      cases hset : it.vec.setIdx it.counter default with
      | none => simp [LSVIter.next, hc, hidx, hset]
      | some v2 => simp [LSVIter.next, hc, hidx, hset] at h
  · simp [LSVIter.next, hc]

theorem collect_drop [Inhabited T] :
    ∀ (k : Nat) (s : LSV T N) (c : Nat), wf s → s.len ≤ c + k →
      LSVIter.collect k ⟨s, c⟩ = s.as_ref.drop c := by
  intro k
  induction k with
  | zero =>
    intro s c h hck
    have hle : s.as_ref.length ≤ c := by rw [as_ref_length h]; omega
    simp [LSVIter.collect, List.drop_eq_nil_of_le hle]
  | succ k ih =>
    intro s c h hck
    by_cases hc : c < s.len
    · obtain ⟨x, v2, hnext, hwf2, hlen2, href2, hx⟩ :=
        @next_spec T N _ ⟨s, c⟩ h hc
      dsimp only at hnext hlen2 href2 hx
      rw [LSVIter.collect, hnext]
      dsimp only
      rw [ih v2 (c + 1) hwf2 (by omega)]
      rw [href2, List.drop_set_of_lt _ _ (by omega)]
      have hlt : c < s.as_ref.length := by rw [as_ref_length h]; exact hc
      rw [List.drop_eq_getElem_cons hlt]
      have hx2 := List.getElem?_eq_getElem hlt
      rw [hx2] at hx
      rw [Option.some.injEq] at hx
      rw [hx]
    · have hnone : LSVIter.next ⟨s, c⟩ = (none, ⟨s, c⟩) := by
        simp [LSVIter.next, LSVIter.next.eq_def, hc]
      have hle : s.as_ref.length ≤ c := by rw [as_ref_length h]; omega
      rw [LSVIter.collect, hnone]
      simp [List.drop_eq_nil_of_le hle]

theorem insert_spec {s : LSV T N} {i : Nat} {x : T} {s2 : LSV T N}
    (h : wf s) (he : s.insert i x = some s2) :
    s2.as_ref = s.as_ref.take i ++ x :: s.as_ref.drop i ∧
    s2.len = s.len + 1 ∧
    s2.isStack = (s.isStack && decide (s.len < N)) := by
  cases s with
  | Stack buf l =>
    obtain ⟨hN, hl⟩ := h
    simp only [LSV.insert] at he
    split_ifs at he with h1 h2 h3 h4
    · obtain ⟨hi, hlb, hib⟩ := h2
      cases he
      refine ⟨?_, rfl, by simp [LSV.isStack, LSV.len, h1]⟩
      show (stackInsertBuf buf i l x).take (l + 1) =
        (buf.take l).take i ++ x :: (buf.take l).drop i
      have hX : ((buf.take i ++ [x]) ++ (buf.drop i).take (l - i)).length = l + 1 := by
        simp only [List.length_append, List.length_take, List.length_drop,
          List.length_cons, List.length_nil]
        omega
      calc (stackInsertBuf buf i l x).take (l + 1)
          = (((buf.take i ++ [x]) ++ (buf.drop i).take (l - i)) ++
              buf.drop (l + 1)).take (l + 1) := by
            simp [stackInsertBuf, List.append_assoc]
        _ = (buf.take i ++ [x]) ++ (buf.drop i).take (l - i) := List.take_left' hX
        _ = (buf.take l).take i ++ x :: (buf.take l).drop i := by
            rw [List.take_take, Nat.min_eq_left hi, List.drop_take]
            simp [List.append_assoc]
    · obtain hi := h4
      cases he
      refine ⟨by simp [LSV.as_ref], ?_, by simp [LSV.isStack, LSV.len, h1]⟩
      simp only [LSV.len, List.length_append, List.length_take, List.length_cons,
        List.length_drop, List.length_nil]
      omega
  | Heap v =>
    simp only [LSV.insert] at he
    split_ifs at he with h1
    cases he
    refine ⟨by simp [LSV.as_ref], ?_, by simp [LSV.isStack]⟩
    simp only [LSV.len, List.length_append, List.length_take, List.length_cons,
      List.length_drop, List.length_nil]
    omega

theorem pop_spec {s : LSV T N} (h : wf s) :
    (s.len = 0 → (s.pop).1 = none) ∧
    (0 < s.len → (s.pop).1 = s.as_ref.getLast? ∧
      (s.pop).2.as_ref = s.as_ref.dropLast) := by
  cases s with
  | Stack buf l =>
    obtain ⟨hN, hl⟩ := h
    constructor
    · intro h0
      simp only [LSV.len] at h0
      simp [LSV.pop, h0]
    · intro h0
      simp only [LSV.len] at h0
      have hlen : (buf.take l).length = l := by simp; omega
      constructor
      · simp only [LSV.pop, if_pos h0]
        rw [LSV.as_ref, List.getLast?_eq_getElem?, hlen,
          List.getElem?_take_of_lt (by omega)]
      · simp only [LSV.pop, if_pos h0]
        show buf.take (l - 1) = (buf.take l).dropLast
        rw [List.dropLast_eq_take, hlen, List.take_take, Nat.min_eq_left (by omega)]
  | Heap v =>
    constructor
    · intro h0
      simp only [LSV.len] at h0
      have : v = [] := List.length_eq_zero.mp h0
      subst this
      rfl
    · intro _
      exact ⟨rfl, rfl⟩

/-! Claim theorems. -/

/-- C1: promotion is monotonic.  For every sequence of operations (push,
pop, insert, remove, clear) applied to a LocalStorageVec, once the
container is in the Heap shape it is in the Heap shape after every
subsequent operation that completes; in particular pop/remove/clear
operations that reduce the length below the inline capacity never return
it to the Stack shape. -/
theorem claim1_promotion_monotonic [Inhabited T] {ops : List (Op T)} {s s2 : LSV T N}
    (h : s.isHeap = true) (he : applyOps ops s = some s2) : s2.isHeap = true := by
  induction ops generalizing s with
  | nil => cases he; exact h
  | cons op ops ih =>
    simp only [applyOps] at he
    cases hop : applyOp op s with
    | none => rw [hop] at he; cases he
    | some s1 =>
      rw [hop] at he
      exact ih (isHeap_applyOp h hop) he

/-- Witness for C1: a concrete Heap-shaped container stays Heap-shaped
through a pop, a clear and a push, even though its length drops below the
inline capacity 4. -/
theorem claim1_witness :
    (LSV.Heap [1, 2] : LSV Nat 4).isHeap = true ∧
    applyOps [Op.pop, Op.clear, Op.push 5] (LSV.Heap [1, 2] : LSV Nat 4) =
      some (LSV.Heap [5]) ∧
    (LSV.Heap [5] : LSV Nat 4).isHeap = true :=
  ⟨by decide, by decide,
   @claim1_promotion_monotonic Nat 4 _ [Op.pop, Op.clear, Op.push 5]
     (.Heap [1, 2]) (.Heap [5]) (by decide) (by decide)⟩

/-- C2: pop removes and returns the last live element wrapped in Some when
the container is non-empty, and returns None without aborting when it is
empty, in both shapes; pushing a, b, c into an empty container and popping
three times yields Some c, Some b, Some a, and a fourth pop yields None. -/
theorem claim2_pop_contract [Inhabited T] :
    (∀ s : LSV T N, wf s →
      (s.len = 0 → (s.pop).1 = none) ∧
      (0 < s.len → (s.pop).1 = s.as_ref.getLast? ∧
        (s.pop).2.as_ref = s.as_ref.dropLast)) ∧
    (∀ a b c : T,
      (((((LSV.new T 4).push a).push b).push c).pop).1 = some c ∧
      ((((((LSV.new T 4).push a).push b).push c).pop).2.pop).1 = some b ∧
      (((((((LSV.new T 4).push a).push b).push c).pop).2.pop).2.pop).1 = some a ∧
      ((((((((LSV.new T 4).push a).push b).push c).pop).2.pop).2.pop).2.pop).1
        = none) :=
  ⟨fun _ h => pop_spec h, fun _ _ _ => ⟨rfl, rfl, rfl, rfl⟩⟩

/-- Witness for C2 at concrete inputs in both shapes. -/
theorem claim2_witness :
    ((LSV.Heap [1, 2] : LSV Nat 4).pop).1 = ([1, 2] : List Nat).getLast? ∧
    ((LSV.Heap ([] : List Nat) : LSV Nat 4).pop).1 = none ∧
    (((((LSV.new Nat 4).push 1).push 2).push 3).pop).1 = some 3 :=
  ⟨(((@claim2_pop_contract Nat 4 _).1 (.Heap [1, 2]) trivial).2 (by decide)).1,
   ((@claim2_pop_contract Nat 4 _).1 (.Heap []) trivial).1 rfl,
   ((@claim2_pop_contract Nat 4 _).2 1 2 3).1⟩

/-- C3: insert(index, item) places the item at the index and shifts every
element previously at a position at or after it one position later,
promoting to the Heap shape exactly when the container was Stack-shaped
with a full inline buffer; in particular the two concrete scenarios of the
claim with inline capacity 4. -/
theorem claim3_insert_shifts [Inhabited T] :
    (∀ (s : LSV T N) (i : Nat) (x : T) (s2 : LSV T N),
      wf s → s.insert i x = some s2 →
      s2.as_ref = s.as_ref.take i ++ x :: s.as_ref.drop i ∧
      s2.len = s.len + 1 ∧
      s2.isStack = (s.isStack && decide (s.len < N))) ∧
    (((from_array [0, 1, 2] : LSV Nat 4).insert 1 3).map LSV.as_ref
        = some [0, 3, 1, 2] ∧
      ((from_array [0, 1, 2] : LSV Nat 4).insert 1 3).map LSV.len = some 4 ∧
      ((from_array [0, 1, 2] : LSV Nat 4).insert 1 3).map LSV.isStack
        = some true) ∧
    (((from_array [0, 1, 2, 3] : LSV Nat 4).insert 1 3).map LSV.as_ref
        = some [0, 3, 1, 2, 3] ∧
      ((from_array [0, 1, 2, 3] : LSV Nat 4).insert 1 3).map LSV.len = some 5 ∧
      ((from_array [0, 1, 2, 3] : LSV Nat 4).insert 1 3).map LSV.isHeap
        = some true) :=
  ⟨fun _ _ _ _ h he => insert_spec h he,
   ⟨by decide, by decide, by decide⟩,
   ⟨by decide, by decide, by decide⟩⟩

/-- Witness for C3: the general insert characterization applied at a
concrete Stack-shaped container. -/
theorem claim3_witness :
    (LSV.Stack [7, 1] 2 : LSV Nat 2).as_ref =
      (LSV.Stack [1, 0] 1 : LSV Nat 2).as_ref.take 0 ++
        7 :: (LSV.Stack [1, 0] 1 : LSV Nat 2).as_ref.drop 0 ∧
    (LSV.Stack [7, 1] 2 : LSV Nat 2).len = (LSV.Stack [1, 0] 1 : LSV Nat 2).len + 1 ∧
    (LSV.Stack [7, 1] 2 : LSV Nat 2).isStack =
      ((LSV.Stack [1, 0] 1 : LSV Nat 2).isStack &&
        decide ((LSV.Stack [1, 0] 1 : LSV Nat 2).len < 2)) :=
  (@claim3_insert_shifts Nat 2 _).1 (.Stack [1, 0] 1) 0 7 (.Stack [7, 1] 2)
    (by decide) (by decide)

/-- C4: construction from a fixed-size source yields the Stack shape with
the source elements in order iff the source length fits the inline
capacity, and the Heap shape with all elements in order otherwise;
construction from a growable source always yields the Heap shape wrapping
that source. -/
theorem claim4_construction_threshold [Inhabited T] (M : Nat) (arr v : List T) :
    (from_array arr : LSV T M).isStack = decide (arr.length ≤ M) ∧
    (from_array arr : LSV T M).as_ref = arr ∧
    (from_array arr : LSV T M).len = arr.length ∧
    (from_vec v : LSV T M) = LSV.Heap v ∧
    (from_vec v : LSV T M).isHeap = true := by
  by_cases h : arr.length ≤ M
  · refine ⟨?_, ?_, ?_, rfl, rfl⟩
    · simp [from_array, h, LSV.isStack]
    · show (from_array arr : LSV T M).as_ref = arr
      simp only [from_array, if_pos h]
      show (arr.takeD M default).take arr.length = arr
      rw [takeD_eq_self_append default arr M h]
      exact List.take_left arr _
    · simp only [from_array, if_pos h]
      rfl
  · have hfa : (from_array arr : LSV T M) = .Heap arr := by
      simp only [from_array, if_neg h]
    refine ⟨?_, ?_, ?_, rfl, rfl⟩ <;> rw [hfa]
    · simp [LSV.isStack, h]
    · rfl
    · rfl

/-- C5 (amended): suffix slicing with start.. returns all live elements
from the start position onward whenever it succeeds; in the Stack shape it
succeeds iff start < len, while in the Heap shape it succeeds iff
start ≤ len (start = len yields the empty suffix rather than a panic). -/
theorem claim5_suffix_bounds (s : LSV T N) (start : Nat) (h : wf s) :
    (s.isStack = true → ((s.indexFrom start).isSome ↔ start < s.len)) ∧
    (s.isHeap = true → ((s.indexFrom start).isSome ↔ start ≤ s.len)) ∧
    (∀ r, s.indexFrom start = some r → r = s.as_ref.drop start) := by
  cases s with
  | Stack buf l =>
    obtain ⟨hN, hl⟩ := h
    refine ⟨fun _ => ?_, fun hh => by simp [LSV.isHeap] at hh, fun r hr => ?_⟩
    · simp only [LSV.indexFrom, LSV.len]
      by_cases hs : start < l
      · rw [if_pos hs, if_pos (by omega)]
        simp [hs]
      · rw [if_neg hs]
        simp [hs]
    · simp only [LSV.indexFrom] at hr
      by_cases hs : start < l
      · rw [if_pos hs, if_pos (by omega)] at hr
        cases hr
        rfl
      · rw [if_neg hs] at hr
        cases hr
  | Heap v =>
    refine ⟨fun hh => by simp [LSV.isStack] at hh, fun _ => ?_, fun r hr => ?_⟩
    · simp only [LSV.indexFrom, LSV.len]
      by_cases hs : start ≤ v.length
      · rw [if_pos hs]; simp [hs]
      · rw [if_neg hs]; simp [hs]
    · simp only [LSV.indexFrom] at hr
      by_cases hs : start ≤ v.length
      · rw [if_pos hs] at hr
        cases hr
        rfl
      · rw [if_neg hs] at hr
        cases hr

/-- Counterexample to C5 as stated: in the Heap shape, suffix access with
start = len succeeds (returning the empty suffix) instead of panicking, so
suffix slicing is not valid iff start < len in both shapes. -/
theorem claim5_counterexample :
    ((LSV.Heap [0] : LSV Nat 1).indexFrom 1).isSome = true ∧
    ¬(1 < (LSV.Heap [0] : LSV Nat 1).len) := by
  decide

/-- Witness for the amended C5 at concrete containers of both shapes. -/
theorem claim5_witness :
    (((LSV.Stack [5, 6, 0] 2 : LSV Nat 3).indexFrom 1).isSome ↔
      1 < (LSV.Stack [5, 6, 0] 2 : LSV Nat 3).len) ∧
    (((LSV.Heap [5] : LSV Nat 3).indexFrom 1).isSome ↔
      1 ≤ (LSV.Heap [5] : LSV Nat 3).len) ∧
    ([6] : List Nat) = (LSV.Stack [5, 6, 0] 2 : LSV Nat 3).as_ref.drop 1 :=
  ⟨(claim5_suffix_bounds (.Stack [5, 6, 0] 2) 1 (by decide)).1 rfl,
   (claim5_suffix_bounds (.Heap [5]) 1 trivial).2.1 rfl,
   (claim5_suffix_bounds (.Stack [5, 6, 0] 2) 1 (by decide)).2.2 [6] (by decide)⟩

/-- C6: after every valid operation sequence, the contiguous read-only
projection has length equal to the length query, and its element at each
live position equals the single-index read there. -/
theorem claim6_length_content_equiv [Inhabited T] {ops : List (Op T)}
    {s0 s1 : LSV T N} (h : wf s0) (he : applyOps ops s0 = some s1) :
    s1.as_ref.length = s1.len ∧ ∀ i, i < s1.len → s1.as_ref[i]? = s1.idx i :=
  have hw := wf_applyOps h he
  ⟨as_ref_length hw, fun _ hi => as_ref_getElem hw hi⟩

/-- Witness for C6: a concrete operation sequence from the empty container
with inline capacity 2, ending in the Heap shape. -/
theorem claim6_witness :
    (LSV.Heap [4, 2] : LSV Nat 2).as_ref.length = (LSV.Heap [4, 2] : LSV Nat 2).len ∧
    (LSV.Heap [4, 2] : LSV Nat 2).as_ref[1]? = (LSV.Heap [4, 2] : LSV Nat 2).idx 1 := by
  have h := @claim6_length_content_equiv Nat 2 _
    [Op.push 1, Op.push 2, Op.push 3, Op.ins 1 4, Op.rem 0, Op.pop]
    (LSV.new Nat 2) (LSV.Heap [4, 2]) (by decide) (by decide)
  exact ⟨h.1, h.2 1 (by decide)⟩

/-- C7: consuming iteration yields exactly len() elements, in the order of
single-index reads from 0 to len()-1, and yields no further elements after
the last live element (extra fuel produces the same list). -/
theorem claim7_consuming_iteration [Inhabited T] (s : LSV T N) (h : wf s) :
    (∀ m, LSVIter.collect (s.len + m) s.into_iter = s.as_ref) ∧
    (LSVIter.collect s.len s.into_iter).length = s.len ∧
    (∀ i, i < s.len → (LSVIter.collect s.len s.into_iter)[i]? = s.idx i) := by
  have hc : ∀ m, LSVIter.collect (s.len + m) s.into_iter = s.as_ref := by
    intro m
    have hd := collect_drop (s.len + m) s 0 h (by omega)
    simpa [LSV.into_iter] using hd
  have h0 : LSVIter.collect s.len s.into_iter = s.as_ref := hc 0
  refine ⟨hc, ?_, ?_⟩
  · rw [h0, as_ref_length h]
  · intro i hi
    rw [h0]
    exact as_ref_getElem h hi

/-- Witness for C7 at a concrete Stack-shaped container of live length 2,
with one unit of extra fuel. -/
theorem claim7_witness :
    LSVIter.collect (2 + 1) (LSV.into_iter (LSV.Stack [5, 6, 0] 2 : LSV Nat 3))
      = [5, 6] ∧
    (LSVIter.collect 2 (LSV.into_iter (LSV.Stack [5, 6, 0] 2 : LSV Nat 3))).length
      = 2 ∧
    (LSVIter.collect 2 (LSV.into_iter (LSV.Stack [5, 6, 0] 2 : LSV Nat 3)))[0]?
      = (LSV.Stack [5, 6, 0] 2 : LSV Nat 3).idx 0 := by
  have h := claim7_consuming_iteration (LSV.Stack [5, 6, 0] 2 : LSV Nat 3) (by decide)
  exact ⟨h.1 1, h.2.1, h.2.2 0 (by decide)⟩

/-- C8: clear sets the live length to 0 and leaves the backing shape
unchanged, in both shapes. -/
theorem claim8_clear_preserves_shape (s : LSV T N) :
    (s.clear).len = 0 ∧ (s.clear).isStack = s.isStack ∧
    (s.clear).isHeap = s.isHeap := by
  cases s <;> exact ⟨rfl, rfl, rfl⟩

/-- C9: remove(index) on a Stack-shape container with positive live length
panics for every index at or beyond the live length, so the value read
from a non-live slot is never returned to the caller. -/
theorem claim9_remove_oob (buf : List T) (l i : Nat)
    (h0 : 0 < l) (hi : l ≤ i) :
    (LSV.Stack buf l : LSV T N).remove i = none := by
  simp only [LSV.remove]
  rw [if_pos h0]
  by_cases hb : i < buf.length
  · rw [dif_pos hb, if_neg (by omega)]
  · rw [dif_neg hb]

/-- Witness for C9: removing at index 3 from a Stack-shaped container with
live length 3 and inline capacity 4 panics even though slot 3 physically
exists in the buffer. -/
theorem claim9_witness :
    0 < 3 ∧ 3 ≤ 3 ∧ (LSV.Stack [0, 1, 2, 9] 3 : LSV Nat 4).remove 3 = none :=
  ⟨by decide, by decide, claim9_remove_oob [0, 1, 2, 9] 3 3 (by decide) (by decide)⟩

/-- C10: the consuming iterator never changes the container's live length
(a taken element is replaced in place by the default value), and it is
fused: once next has returned None, the iterator state is fixed and every
subsequent call to next also returns None. -/
theorem claim10_iterator_fused [Inhabited T] (it : LSVIter T N) :
    ((it.next).2.vec.len = it.vec.len) ∧
    ((it.next).1 = none →
      ∀ k, LSVIter.steps k it = it ∧ ((LSVIter.steps k it).next).1 = none) ∧
    (∀ x it2, wf it.vec → it.next = (some x, it2) →
      it2.vec.as_ref = it.vec.as_ref.set it.counter default ∧
      it2.counter = it.counter + 1) := by
  refine ⟨?_, ?_, ?_⟩
  · by_cases hc : it.counter < it.vec.len
    · cases hidx : it.vec.idx it.counter with
      | none => simp [LSVIter.next, hc, hidx]
      | some x =>
        cases hset : it.vec.setIdx it.counter default with
        | none => simp [LSVIter.next, hc, hidx, hset]
        | some v2 => simp [LSVIter.next, hc, hidx, hset, setIdx_len hset]
    · simp [LSVIter.next, hc]
  · intro hn k
    have hfix : (it.next).2 = it := next_none_snd hn
    induction k with
    | zero => exact ⟨rfl, hn⟩
    | succ k ih =>
      have hstep : LSVIter.steps (k + 1) it = LSVIter.steps k it := by
        rw [LSVIter.steps, hfix]
      rw [hstep]
      exact ih
  · intro x it2 hw he
    by_cases hc : it.counter < it.vec.len
    · obtain ⟨x2, v2, hnext, _, _, href2, _⟩ := next_spec hw hc
      rw [hnext] at he
      rw [Prod.mk.injEq] at he
      obtain ⟨he1, he2⟩ := he
      subst he2
      exact ⟨href2, rfl⟩
    · have hnone : it.next = (none, it) := by simp [LSVIter.next, hc]
      rw [hnone] at he
      exact absurd he (by simp)

/-- Witness for C10: length preservation across one next on a Heap-shaped
container, fusedness after exhaustion on the empty container, and the
default-replacement behaviour at one concrete step. -/
theorem claim10_witness :
    ((⟨(LSV.Heap [7] : LSV Nat 2), 0⟩ : LSVIter Nat 2).next).2.vec.len =
      (⟨(LSV.Heap [7] : LSV Nat 2), 0⟩ : LSVIter Nat 2).vec.len ∧
    LSVIter.steps 3 (⟨(LSV.Heap ([] : List Nat) : LSV Nat 2), 0⟩ : LSVIter Nat 2) =
      (⟨(LSV.Heap [] : LSV Nat 2), 0⟩ : LSVIter Nat 2) ∧
    ((LSVIter.steps 3
        (⟨(LSV.Heap ([] : List Nat) : LSV Nat 2), 0⟩ : LSVIter Nat 2)).next).1
      = none ∧
    (⟨(LSV.Heap [0] : LSV Nat 2), 1⟩ : LSVIter Nat 2).vec.as_ref =
      (LSV.Heap [7] : LSV Nat 2).as_ref.set 0 0 := by
  have ha := (claim10_iterator_fused (⟨(.Heap [7] : LSV Nat 2), 0⟩ : LSVIter Nat 2)).1
  have hb := (claim10_iterator_fused
    (⟨(.Heap [] : LSV Nat 2), 0⟩ : LSVIter Nat 2)).2.1 rfl 3
  have hc := (claim10_iterator_fused
    (⟨(.Heap [7] : LSV Nat 2), 0⟩ : LSVIter Nat 2)).2.2 7
    (⟨(.Heap [0] : LSV Nat 2), 1⟩ : LSVIter Nat 2) trivial (by decide)
  exact ⟨ha, hb.1, hb.2, hc.1⟩

end LSVSpec
